import Mathlib

/-!
Shallow embedding of the `file` memory package of go-joe/file-memory:
a key-value store mapping string keys to string values, mirrored to a
single JSON file on disk.  The Go map is embedded as an association list
with unique keys, the file system as an association list from paths to
file contents, and the fallible file operations of `persist` take an
explicit oracle recording which of the three fallible steps (open,
encode, close) fails.
-/

namespace FileMemory

/-- Error values returned by the store, one constructor per distinct
`errors.New` / `errors.Wrap` site in the source. -/
inductive MemErr where
  /-- "brain was already shut down" (Get/Set/Delete/Memories on a closed store) -/
  | alreadyShutDown
  /-- "brain was already closed" (Close on a closed store) -/
  | alreadyClosed
  /-- "failed to open file" (NewMemory) -/
  | constructOpenFailed
  /-- "failed decode data as JSON" (NewMemory) -/
  | constructDecodeFailed
  /-- "failed to open file to persist data" (persist) -/
  | persistOpenFailed
  /-- "failed to encode data as JSON" (persist) -/
  | persistEncodeFailed
  /-- "failed to close file; data might not have been fully persisted to disk" (persist) -/
  | persistCloseFailed
  deriving DecidableEq, Repr

/-- Content of a file on disk, as seen by the JSON decoder: either a valid
JSON object mapping strings to strings, or anything that fails to decode
as `map[string]string` (invalid JSON, non-object, non-string values,
truncated data). -/
inductive FileData where
  | obj (entries : List (String × String))
  | malformed
  deriving DecidableEq, Repr

/-- Lookup in an association list, mirroring a Go map read `m[k]`. -/
def alistLookup {α : Type} (l : List (String × α)) (k : String) : Option α :=
  match l with
  | [] => none
  | (k₁, v₁) :: rest => if k₁ = k then some v₁ else alistLookup rest k

/-- Insert/overwrite in an association list, mirroring `m[k] = v`. -/
def alistInsert {α : Type} (l : List (String × α)) (k : String) (v : α) :
    List (String × α) :=
  match l with
  | [] => [(k, v)]
  | (k₁, v₁) :: rest =>
    if k₁ = k then (k, v) :: rest else (k₁, v₁) :: alistInsert rest k v

/-- Removal from an association list, mirroring `delete(m, k)`. -/
def alistErase {α : Type} (l : List (String × α)) (k : String) :
    List (String × α) :=
  match l with
  | [] => []
  | (k₁, v₁) :: rest =>
    if k₁ = k then rest else (k₁, v₁) :: alistErase rest k

/-- The file system: a finite map from paths to file contents.  A path not
bound in the list is a file that does not exist (`os.IsNotExist`). -/
abbrev FS := List (String × FileData)

/-- Which of the three fallible steps of `persist` fail: opening the file
for writing, JSON-encoding into it, and closing/flushing it. -/
structure PersistOracle where
  openFails : Bool
  encodeFails : Bool
  closeFails : Bool
  deriving DecidableEq, Repr

/-- The oracle under which every file operation succeeds. -/
def okOracle : PersistOracle := ⟨false, false, false⟩

/-- The `memory` struct: backing file path and the data map.  `data = none`
models the nil map of a closed store (`m.data = nil` after Close); the
logger field is observability only and is omitted. -/
structure Memory where
  path : String
  data : Option (List (String × String))
  deriving DecidableEq, Repr

/-- `persist` (memory.go): opens the backing file with
`O_WRONLY|O_CREATE|O_TRUNC`, JSON-encodes `m.data` into it and closes it.
On open failure the file system is unchanged (the failed open performed no
truncation); on encode failure the file was truncated by the open and holds
partial output, so it no longer decodes as a string map; on close failure
the encoder has already written the full object but the error is reported.
Only ever invoked with an open store, so `m.data = some entries`. -/
def persist (m : Memory) (fs : FS) (o : PersistOracle) : Option MemErr × FS :=
  if o.openFails then
    (some MemErr.persistOpenFailed, fs)
  else if o.encodeFails then
    (some MemErr.persistEncodeFailed, alistInsert fs m.path FileData.malformed)
  else if o.closeFails then
    (some MemErr.persistCloseFailed,
      alistInsert fs m.path (FileData.obj (m.data.getD [])))
  else
    (none, alistInsert fs m.path (FileData.obj (m.data.getD [])))

/-- `NewMemory` (memory.go): starts from an empty map, opens the file at
`path` for reading.  If the file does not exist the store starts empty; if
it exists but cannot be opened (`openFails`) construction fails with a
wrapped open error; otherwise its content is JSON-decoded into the map and
a decode failure fails construction.  `os.Open` performs no write, so the
file system is returned unchanged in every branch.  Options are only the
logger (observability, omitted). -/
def NewMemory (path : String) (fs : FS) (openFails : Bool) :
    Except MemErr Memory × FS :=
  match alistLookup fs path with
  | none => (Except.ok ⟨path, some []⟩, fs)
  | some content =>
    if openFails then (Except.error MemErr.constructOpenFailed, fs)
    else
      match content with
      | FileData.obj entries => (Except.ok ⟨path, some entries⟩, fs)
      | FileData.malformed => (Except.error MemErr.constructDecodeFailed, fs)

/-- `Set` (memory.go): fails if the store is closed, otherwise assigns
`m.data[key] = value` and persists. -/
def Memory.set (m : Memory) (key value : String) (fs : FS) (o : PersistOracle) :
    Option MemErr × Memory × FS :=
  match m.data with
  | none => (some MemErr.alreadyShutDown, m, fs)
  | some d =>
    let m₁ : Memory := ⟨m.path, some (alistInsert d key value)⟩
    let r := persist m₁ fs o
    (r.1, m₁, r.2)

/-- `Get` (memory.go): fails if the store is closed, otherwise returns
`(m.data[key], ok, nil)`; a missing key yields the zero value `""`.
Never touches the file system. -/
def Memory.get (m : Memory) (key : String) : String × Bool × Option MemErr :=
  match m.data with
  | none => ("", false, some MemErr.alreadyShutDown)
  | some d =>
    match alistLookup d key with
    | some v => (v, true, none)
    | none => ("", false, none)

/-- `Delete` (memory.go): fails if the store is closed; if the key is
absent it returns `(false, nil)` without mutating anything and without
persisting; otherwise it removes the key and persists. -/
def Memory.delete (m : Memory) (key : String) (fs : FS) (o : PersistOracle) :
    Bool × Option MemErr × Memory × FS :=
  match m.data with
  | none => (false, some MemErr.alreadyShutDown, m, fs)
  | some d =>
    if (alistLookup d key).isSome then
      let m₁ : Memory := ⟨m.path, some (alistErase d key)⟩
      let r := persist m₁ fs o
      (true, r.1, m₁, r.2)
    else
      (false, none, m, fs)

/-- The copy loop of `Memories`: `for k, v := range m.data { data[k] = v }`
starting from a fresh empty map. -/
def copyData (d : List (String × String)) : List (String × String) :=
  d.foldl (fun acc p => alistInsert acc p.1 p.2) []

/-- `Memories` (memory.go): fails if the store is closed, otherwise returns
a freshly built copy of the data map. -/
def Memory.memories (m : Memory) : Except MemErr (List (String × String)) :=
  match m.data with
  | none => Except.error MemErr.alreadyShutDown
  | some d => Except.ok (copyData d)

/-- `Close` (memory.go): fails if already closed, otherwise discards the
map (`m.data = nil`).  Performs no file I/O, which the embedding reflects
by not taking or producing a file system. -/
def Memory.close (m : Memory) : Option MemErr × Memory :=
  match m.data with
  | none => (some MemErr.alreadyClosed, m)
  | some _ => (none, ⟨m.path, none⟩)

/-- Modelled from the spec: the `Keys` operation is exercised by the
repository's tests and changelog but its implementation is not among the
given sources.  Per the spec it fails on a closed store and otherwise
returns every key of the mapping, sorted lexicographically before return. -/
def Memory.keys (m : Memory) : Except MemErr (List String) :=
  match m.data with
  | none => Except.error MemErr.alreadyShutDown
  | some d => Except.ok (List.insertionSort (· ≤ ·) (d.map Prod.fst))

/-- Sequentially `Set` each pair of `pairs` (in order) under the
all-successful oracle, stopping at the first error, as the round-trip
scenario of the spec does. -/
def setAll (m : Memory) (pairs : List (String × String)) (fs : FS) :
    Option MemErr × Memory × FS :=
  match pairs with
  | [] => (none, m, fs)
  | (k, v) :: rest =>
    let r := m.set k v fs okOracle
    match r.1 with
    | none => setAll r.2.1 rest r.2.2
    | some e => (some e, r.2.1, r.2.2)

theorem alistLookup_insert_self {α : Type} (l : List (String × α)) (k : String) (v : α) :
    alistLookup (alistInsert l k v) k = some v := by
  induction l with
  | nil => simp [alistInsert, alistLookup]
  | cons p rest ih =>
    obtain ⟨k₁, v₁⟩ := p
    by_cases h : k₁ = k
    · simp [alistInsert, alistLookup, h]
    · simp [alistInsert, alistLookup, h, ih]

theorem alistLookup_insert_other {α : Type} (l : List (String × α)) (k k₁ : String)
    (v : α) (hne : k₁ ≠ k) :
    alistLookup (alistInsert l k v) k₁ = alistLookup l k₁ := by
  induction l with
  | nil => simp [alistInsert, alistLookup, Ne.symm hne]
  | cons p rest ih =>
    obtain ⟨k₂, v₂⟩ := p
    by_cases h : k₂ = k
    · subst h
      simp [alistInsert, alistLookup, Ne.symm hne]
    · simp only [alistInsert, if_neg h, alistLookup]
      by_cases h₂ : k₂ = k₁ <;> simp [h₂, ih]

theorem alistInsert_of_not_mem {α : Type} (l : List (String × α)) (k : String) (v : α)
    (h : k ∉ l.map Prod.fst) :
    alistInsert l k v = l ++ [(k, v)] := by
  induction l with
  | nil => simp [alistInsert]
  | cons p rest ih =>
    obtain ⟨k₁, v₁⟩ := p
    simp only [List.map_cons, List.mem_cons] at h
    push_neg at h
    simp [alistInsert, Ne.symm h.1, ih h.2]

theorem foldl_alistInsert_eq_append (l acc : List (String × String))
    (hnd : (l.map Prod.fst).Nodup)
    (hdisj : ∀ a, a ∈ acc.map Prod.fst → a ∉ l.map Prod.fst) :
    l.foldl (fun acc p => alistInsert acc p.1 p.2) acc = acc ++ l := by
  induction l generalizing acc with
  | nil => simp
  | cons p rest ih =>
    obtain ⟨k, v⟩ := p
    simp only [List.map_cons, List.nodup_cons] at hnd
    have hknotacc : k ∉ acc.map Prod.fst := by
      intro hmem
      exact hdisj k hmem (by simp)
    have hins : alistInsert acc k v = acc ++ [(k, v)] :=
      alistInsert_of_not_mem acc k v hknotacc
    simp only [List.foldl_cons, hins]
    rw [ih (acc ++ [(k, v)]) hnd.2]
    · simp
    · intro a hmem
      simp only [List.map_append, List.mem_append] at hmem
      rcases hmem with hmem | hmem
      · have := hdisj a hmem
        simp only [List.map_cons, List.mem_cons] at this
        push_neg at this
        exact this.2
      · simp only [List.map_cons, List.mem_cons] at hmem
        rcases hmem with rfl | hmem
        · exact hnd.1
        · simp at hmem

/-- C1: on an open store, `Delete` of a key absent from the mapping returns
`(false, nil)`, performs no persist (the file system is unchanged) and
leaves the store — hence every other key's value — unchanged. -/
theorem delete_absent_is_noop (m : Memory) (d : List (String × String))
    (k : String) (fs : FS) (o : PersistOracle)
    (hd : m.data = some d) (hk : alistLookup d k = none) :
    m.delete k fs o = (false, none, m, fs) := by
  simp [Memory.delete, hd, hk]

/-- Witness for C1 at a concrete store and key. -/
theorem delete_absent_is_noop_wit :
    Memory.delete ⟨"p", some [("a", "1")]⟩ "b" [] okOracle
      = (false, none, ⟨"p", some [("a", "1")]⟩, []) :=
  delete_absent_is_noop _ [("a", "1")] "b" [] okOracle rfl (by decide)

/-- C3: once `Close` has succeeded the data map is nil, every subsequent
operation (`Get`, `Set`, `Delete`, `Memories`, `Keys`) fails with the
closed-store error without mutating the store or the file system, and a
second `Close` is itself a reported failure. -/
theorem close_then_all_operations_fail (m m' : Memory)
    (h : m.close = (none, m')) :
    m'.data = none
    ∧ (∀ k, m'.get k = ("", false, some MemErr.alreadyShutDown))
    ∧ (∀ k v fs o, m'.set k v fs o = (some MemErr.alreadyShutDown, m', fs))
    ∧ (∀ k fs o, m'.delete k fs o = (false, some MemErr.alreadyShutDown, m', fs))
    ∧ m'.memories = Except.error MemErr.alreadyShutDown
    ∧ m'.keys = Except.error MemErr.alreadyShutDown
    ∧ m'.close = (some MemErr.alreadyClosed, m') := by
  obtain ⟨d, hd⟩ : ∃ d, m.data = some d := by
    cases hdd : m.data with
    | none => simp [Memory.close, hdd] at h
    | some d => exact ⟨d, rfl⟩
  have hm' : m' = ⟨m.path, none⟩ := by
    simp only [Memory.close, hd] at h
    exact (Prod.mk.injEq _ _ _ _).mp h |>.2.symm
  subst hm'
  exact ⟨rfl, fun k => rfl, fun k v fs o => rfl, fun k fs o => rfl, rfl, rfl, rfl⟩

/-- Witness for C3 at a concrete freshly closed store. -/
theorem close_then_all_operations_fail_wit :
    (Memory.mk "p" none).data = none
    ∧ (Memory.mk "p" none).get "a" = ("", false, some MemErr.alreadyShutDown)
    ∧ (Memory.mk "p" none).set "a" "1" [] okOracle
        = (some MemErr.alreadyShutDown, Memory.mk "p" none, [])
    ∧ (Memory.mk "p" none).delete "a" [] okOracle
        = (false, some MemErr.alreadyShutDown, Memory.mk "p" none, [])
    ∧ (Memory.mk "p" none).memories = Except.error MemErr.alreadyShutDown
    ∧ (Memory.mk "p" none).keys = Except.error MemErr.alreadyShutDown
    ∧ (Memory.mk "p" none).close = (some MemErr.alreadyClosed, Memory.mk "p" none) :=
  ⟨(close_then_all_operations_fail ⟨"p", some [("a", "1")]⟩ ⟨"p", none⟩ rfl).1,
   (close_then_all_operations_fail ⟨"p", some [("a", "1")]⟩ ⟨"p", none⟩ rfl).2.1 "a",
   (close_then_all_operations_fail ⟨"p", some [("a", "1")]⟩ ⟨"p", none⟩ rfl).2.2.1
     "a" "1" [] okOracle,
   (close_then_all_operations_fail ⟨"p", some [("a", "1")]⟩ ⟨"p", none⟩ rfl).2.2.2.1
     "a" [] okOracle,
   (close_then_all_operations_fail ⟨"p", some [("a", "1")]⟩ ⟨"p", none⟩ rfl).2.2.2.2.1,
   (close_then_all_operations_fail ⟨"p", some [("a", "1")]⟩ ⟨"p", none⟩ rfl).2.2.2.2.2.1,
   (close_then_all_operations_fail ⟨"p", some [("a", "1")]⟩ ⟨"p", none⟩ rfl).2.2.2.2.2.2⟩

/-- C6: construction with no file at the path yields an open store with an
empty mapping and no error; if a file exists but cannot be opened the
construction fails with the wrapped open error, and if it exists, opens,
but does not decode as a JSON string map, construction fails with the
wrapped decode error; in both failure cases no store is returned. -/
theorem newMemory_construction_cases (path : String) (fs : FS) (b : Bool) :
    (alistLookup fs path = none →
      NewMemory path fs b = (Except.ok ⟨path, some []⟩, fs))
    ∧ (∀ c, alistLookup fs path = some c → b = true →
      NewMemory path fs b = (Except.error MemErr.constructOpenFailed, fs))
    ∧ (alistLookup fs path = some FileData.malformed → b = false →
      NewMemory path fs b = (Except.error MemErr.constructDecodeFailed, fs)) := by
  refine ⟨fun h => ?_, fun c hc hb => ?_, fun h hb => ?_⟩
  · simp [NewMemory, h]
  · simp [NewMemory, hc, hb]
  · simp [NewMemory, h, hb]

/-- Witness for C6: an absent file, an unopenable file and a malformed file
at concrete paths. -/
theorem newMemory_construction_cases_wit :
    NewMemory "p" [] false = (Except.ok ⟨"p", some []⟩, [])
    ∧ NewMemory "p" [("p", FileData.malformed)] true
      = (Except.error MemErr.constructOpenFailed, [("p", FileData.malformed)])
    ∧ NewMemory "p" [("p", FileData.malformed)] false
      = (Except.error MemErr.constructDecodeFailed, [("p", FileData.malformed)]) :=
  ⟨(newMemory_construction_cases "p" [] false).1 rfl,
   (newMemory_construction_cases "p" [("p", FileData.malformed)] true).2.1
     FileData.malformed (by decide) rfl,
   (newMemory_construction_cases "p" [("p", FileData.malformed)] false).2.2
     (by decide) rfl⟩

/-- C2: on an open store whose mapping has unique keys, `Keys` succeeds and
returns every key of the mapping, each exactly once, sorted
lexicographically. -/
theorem keys_sorted_and_complete (m : Memory) (d : List (String × String))
    (hd : m.data = some d) (hnd : (d.map Prod.fst).Nodup) :
    ∃ l, m.keys = Except.ok l
      ∧ l.Sorted (fun a b => a ≤ b)
      ∧ l.Nodup
      ∧ List.Perm l (d.map Prod.fst) := by
  refine ⟨List.insertionSort (fun a b => a ≤ b) (d.map Prod.fst), ?_, ?_, ?_, ?_⟩
  · simp [Memory.keys, hd]
  · exact List.sorted_insertionSort _ _
  · exact (List.perm_insertionSort (fun a b => a ≤ b) (d.map Prod.fst)).nodup_iff.mpr hnd
  · exact List.perm_insertionSort _ _

/-- Witness for C2 at a concrete store. -/
theorem keys_sorted_and_complete_wit :
    ∃ l, (Memory.mk "p" (some [("b", "2"), ("a", "1")])).keys = Except.ok l
      ∧ l.Sorted (fun a b : String => a ≤ b)
      ∧ l.Nodup
      ∧ List.Perm l ["b", "a"] :=
  keys_sorted_and_complete _ [("b", "2"), ("a", "1")] rfl (by decide)

/-- C4: on an open store, `Set` under a persist failure (the open, encode
or close step fails) returns the persist error, yet the store retains the
freshly inserted value: the mapping was mutated before the persist and is
not rolled back, so `Get` of the key now observes the new value. -/
theorem set_persist_failure_keeps_new_value (m : Memory)
    (d : List (String × String)) (k v : String) (fs : FS) (o : PersistOracle)
    (hd : m.data = some d)
    (hfail : o.openFails = true ∨ o.encodeFails = true ∨ o.closeFails = true) :
    ∃ e fs₂, m.set k v fs o = (some e, ⟨m.path, some (alistInsert d k v)⟩, fs₂)
      ∧ (Memory.mk m.path (some (alistInsert d k v))).get k = (v, true, none) := by
  have hget : (Memory.mk m.path (some (alistInsert d k v))).get k = (v, true, none) := by
    simp [Memory.get, alistLookup_insert_self]
  obtain ⟨o1, o2, o3⟩ := o
  cases o1 with
  | true =>
    exact ⟨MemErr.persistOpenFailed, fs, by simp [Memory.set, hd, persist], hget⟩
  | false =>
    cases o2 with
    | true =>
      exact ⟨MemErr.persistEncodeFailed,
        alistInsert fs m.path FileData.malformed,
        by simp [Memory.set, hd, persist], hget⟩
    | false =>
      cases o3 with
      | true =>
        exact ⟨MemErr.persistCloseFailed,
          alistInsert fs m.path (FileData.obj (alistInsert d k v)),
          by simp [Memory.set, hd, persist], hget⟩
      | false => simp at hfail

/-- Witness for C4: a failing open step at a concrete store. -/
theorem set_persist_failure_keeps_new_value_wit :
    ∃ e fs₂, Memory.set ⟨"p", some []⟩ "a" "1" [] ⟨true, false, false⟩
        = (some e, ⟨"p", some [("a", "1")]⟩, fs₂)
      ∧ (Memory.mk "p" (some [("a", "1")])).get "a" = ("1", true, none) :=
  set_persist_failure_keeps_new_value ⟨"p", some []⟩ [] "a" "1" []
    ⟨true, false, false⟩ rfl (Or.inl rfl)

/-- C5: on an open store, after a successful `Set`, and after a successful
`Delete` of a present key, the JSON object in the backing file is exactly
the in-memory mapping. -/
theorem successful_mutation_syncs_file (m : Memory)
    (d : List (String × String)) (k v : String) (fs : FS) (o : PersistOracle)
    (hd : m.data = some d) :
    (∀ m' fs₂, m.set k v fs o = (none, m', fs₂) →
      ∃ d', m'.data = some d'
        ∧ alistLookup fs₂ m'.path = some (FileData.obj d'))
    ∧ ((alistLookup d k).isSome = true →
      ∀ b m' fs₂, m.delete k fs o = (b, none, m', fs₂) →
      ∃ d', m'.data = some d'
        ∧ alistLookup fs₂ m'.path = some (FileData.obj d')) := by
  obtain ⟨o1, o2, o3⟩ := o
  constructor
  · intro m' fs₂ hset
    cases o1 <;> cases o2 <;> cases o3 <;>
      simp [Memory.set, persist, hd] at hset
    obtain ⟨hm', hfs⟩ := hset
    exact ⟨alistInsert d k v, by rw [← hm'], by
      rw [← hfs, ← hm']
      exact alistLookup_insert_self _ _ _⟩
  · intro hpresent b m' fs₂ hdel
    cases o1 <;> cases o2 <;> cases o3 <;>
      simp [Memory.delete, persist, hd, hpresent] at hdel
    obtain ⟨hb, hm', hfs⟩ := hdel
    exact ⟨alistErase d k, by rw [← hm'], by
      rw [← hfs, ← hm']
      exact alistLookup_insert_self _ _ _⟩

/-- Witness for C5: a successful `Set` and a successful `Delete` of a
present key at a concrete store. -/
theorem successful_mutation_syncs_file_wit :
    (∃ d', (Memory.mk "p" (some [("a", "1"), ("b", "2")])).data = some d'
      ∧ alistLookup [("p", FileData.obj [("a", "1"), ("b", "2")])] "p"
        = some (FileData.obj d'))
    ∧ (∃ d', (Memory.mk "p" (some ([] : List (String × String)))).data = some d'
      ∧ alistLookup [("p", FileData.obj ([] : List (String × String)))] "p"
        = some (FileData.obj d')) :=
  ⟨(successful_mutation_syncs_file ⟨"p", some [("a", "1")]⟩ [("a", "1")] "b" "2" []
      okOracle rfl).1
      ⟨"p", some [("a", "1"), ("b", "2")]⟩ [("p", FileData.obj [("a", "1"), ("b", "2")])]
      (by decide),
   (successful_mutation_syncs_file ⟨"p", some [("a", "1")]⟩ [("a", "1")] "a" "2" []
      okOracle rfl).2
      (by decide) true ⟨"p", some []⟩ [("p", FileData.obj [])] (by decide)⟩

/-- C8: on an open store whose mapping has unique keys, `Memories` succeeds
and the freshly built copy it returns is equal, entry for entry, to the
in-memory mapping. -/
theorem memories_returns_copy_of_mapping (m : Memory)
    (d : List (String × String))
    (hd : m.data = some d) (hnd : (d.map Prod.fst).Nodup) :
    m.memories = Except.ok (copyData d) ∧ copyData d = d := by
  refine ⟨by simp [Memory.memories, hd], ?_⟩
  unfold copyData
  simpa using foldl_alistInsert_eq_append d [] hnd (by simp)

/-- Witness for C8 at a concrete store. -/
theorem memories_returns_copy_of_mapping_wit :
    (Memory.mk "p" (some [("a", "1"), ("b", "2")])).memories
      = Except.ok (copyData [("a", "1"), ("b", "2")])
    ∧ copyData [("a", "1"), ("b", "2")] = [("a", "1"), ("b", "2")] :=
  memories_returns_copy_of_mapping _ [("a", "1"), ("b", "2")] rfl (by decide)

/-- C10: construction never writes to the file system in any branch; after
constructing against a path with no file, the file still does not exist,
a no-op `Delete` still does not create it, and the first successful `Set`
is what first writes the file (with the mapping as its JSON object). -/
theorem construction_writes_nothing (path : String) (fs : FS) (b : Bool) :
    (NewMemory path fs b).2 = fs
    ∧ (alistLookup fs path = none →
      (NewMemory path fs b).1 = Except.ok ⟨path, some []⟩
      ∧ (∀ k o, Memory.delete ⟨path, some []⟩ k fs o
          = (false, none, ⟨path, some []⟩, fs))
      ∧ (∀ k v, Memory.set ⟨path, some []⟩ k v fs okOracle
          = (none, ⟨path, some [(k, v)]⟩, alistInsert fs path (FileData.obj [(k, v)]))
        ∧ alistLookup (alistInsert fs path (FileData.obj [(k, v)])) path
          = some (FileData.obj [(k, v)]))) := by
  constructor
  · cases h : alistLookup fs path with
    | none => simp [NewMemory, h]
    | some c =>
      cases b with
      | true => simp [NewMemory, h]
      | false => cases c <;> simp [NewMemory, h]
  · intro h
    refine ⟨by simp [NewMemory, h], fun k o => ?_, fun k v => ?_⟩
    · simp [Memory.delete, alistLookup]
    · exact ⟨by simp [Memory.set, persist, okOracle, alistInsert],
        alistLookup_insert_self _ _ _⟩

/-- Witness for C10 at a concrete empty file system. -/
theorem construction_writes_nothing_wit :
    (NewMemory "p" [] false).1 = Except.ok ⟨"p", some []⟩
    ∧ Memory.delete ⟨"p", some []⟩ "a" [] okOracle
        = (false, none, ⟨"p", some []⟩, [])
    ∧ Memory.set ⟨"p", some []⟩ "a" "1" [] okOracle
        = (none, ⟨"p", some [("a", "1")]⟩, alistInsert [] "p" (FileData.obj [("a", "1")]))
    ∧ alistLookup (alistInsert [] "p" (FileData.obj [("a", "1")])) "p"
        = some (FileData.obj [("a", "1")]) :=
  ⟨((construction_writes_nothing "p" [] false).2 rfl).1,
   ((construction_writes_nothing "p" [] false).2 rfl).2.1 "a" okOracle,
   (((construction_writes_nothing "p" [] false).2 rfl).2.2 "a" "1").1,
   (((construction_writes_nothing "p" [] false).2 rfl).2.2 "a" "1").2⟩

theorem setAll_spec (pairs : List (String × String)) (path : String)
    (acc : List (String × String)) (fs : FS)
    (hnd : (pairs.map Prod.fst).Nodup)
    (hdisj : ∀ a, a ∈ acc.map Prod.fst → a ∉ pairs.map Prod.fst) :
    ∃ fs₂, setAll ⟨path, some acc⟩ pairs fs = (none, ⟨path, some (acc ++ pairs)⟩, fs₂)
      ∧ (alistLookup fs₂ path = some (FileData.obj (acc ++ pairs))
         ∨ (pairs = [] ∧ fs₂ = fs)) := by
  induction pairs generalizing acc fs with
  | nil => exact ⟨fs, by simp [setAll], Or.inr ⟨rfl, rfl⟩⟩
  | cons p rest ih =>
    obtain ⟨k, v⟩ := p
    simp only [List.map_cons, List.nodup_cons] at hnd
    have hkacc : k ∉ acc.map Prod.fst := fun hmem => hdisj k hmem (by simp)
    have hins : alistInsert acc k v = acc ++ [(k, v)] :=
      alistInsert_of_not_mem _ _ _ hkacc
    have hdisj' : ∀ a, a ∈ (acc ++ [(k, v)]).map Prod.fst → a ∉ rest.map Prod.fst := by
      intro a hmem
      simp only [List.map_append, List.mem_append, List.map_cons, List.map_nil,
        List.mem_singleton] at hmem
      rcases hmem with hmem | rfl
      · have := hdisj a hmem
        simp only [List.map_cons, List.mem_cons] at this
        push_neg at this
        exact this.2
      · exact hnd.1
    obtain ⟨fs₂, hrun, hlook⟩ :=
      ih (acc ++ [(k, v)]) (alistInsert fs path (FileData.obj (acc ++ [(k, v)]))) hnd.2 hdisj'
    refine ⟨fs₂, ?_, ?_⟩
    · have hstep : setAll ⟨path, some acc⟩ ((k, v) :: rest) fs
          = setAll ⟨path, some (acc ++ [(k, v)])⟩ rest
              (alistInsert fs path (FileData.obj (acc ++ [(k, v)]))) := by
        simp [setAll, Memory.set, persist, okOracle, hins]
      rw [hstep, hrun]
      simp
    · rcases hlook with hlook | ⟨hrest, hfs⟩
      · left
        simpa using hlook
      · left
        subst hrest
        subst hfs
        simpa using alistLookup_insert_self fs path (FileData.obj (acc ++ [(k, v)]))

/-- C7: round trip — constructing a store against a path with no file,
successfully setting N pairs with pairwise distinct keys, closing, then
constructing a fresh store against the same path yields a store whose
mapping is exactly those N pairs. -/
theorem round_trip_reproduces_pairs (path : String)
    (pairs : List (String × String)) (fs : FS)
    (hfresh : alistLookup fs path = none)
    (hnd : (pairs.map Prod.fst).Nodup) :
    ∃ fs₂, (NewMemory path fs false).1 = Except.ok ⟨path, some []⟩
      ∧ setAll ⟨path, some []⟩ pairs fs = (none, ⟨path, some pairs⟩, fs₂)
      ∧ Memory.close ⟨path, some pairs⟩ = (none, ⟨path, none⟩)
      ∧ (NewMemory path fs₂ false).1 = Except.ok ⟨path, some pairs⟩ := by
  obtain ⟨fs₂, hrun, hlook⟩ := setAll_spec pairs path [] fs hnd (by simp)
  refine ⟨fs₂, by simp [NewMemory, hfresh], by simpa using hrun, by simp [Memory.close], ?_⟩
  rcases hlook with hlook | ⟨hpairs, hfs⟩
  · simp only [List.nil_append] at hlook
    simp [NewMemory, hlook]
  · subst hpairs
    subst hfs
    simp [NewMemory, hfresh]

/-- Witness for C7 at a concrete path and two concrete pairs. -/
theorem round_trip_reproduces_pairs_wit :
    ∃ fs₂, (NewMemory "p" [] false).1 = Except.ok ⟨"p", some []⟩
      ∧ setAll ⟨"p", some []⟩ [("b", "2"), ("a", "1")] []
          = (none, ⟨"p", some [("b", "2"), ("a", "1")]⟩, fs₂)
      ∧ Memory.close ⟨"p", some [("b", "2"), ("a", "1")]⟩ = (none, ⟨"p", none⟩)
      ∧ (NewMemory "p" fs₂ false).1
          = Except.ok ⟨"p", some [("b", "2"), ("a", "1")]⟩ :=
  round_trip_reproduces_pairs "p" [("b", "2"), ("a", "1")] [] rfl (by decide)

end FileMemory
